import Mathlib

/-!
A shallow embedding of the `kode-ai-rs` documentation store: the keyword
extractor, the document store (`src/storage/mod.rs`), the per-file parts of
the GitHub fetch coordinator (`src/github/mod.rs`) and the title/summary
derivation (`src/document/mod.rs`), together with theorems checking the
natural-language specification against the code.

Characters are modelled over the ASCII fragment: `Char.toLower` and
`Char.isAlphanum` stand for Rust's `char::to_lowercase` and
`char::is_alphanumeric`, which agree with them on ASCII, and string length
counts characters, which equals Rust's byte length for ASCII text.
-/

namespace KodeAi

/-- Models Rust `char::is_alphanumeric` (ASCII fragment). -/
def isAlnumChar (c : Char) : Bool := c.isAlphanum

/-- Models Rust `char::to_lowercase` / `str::to_lowercase` per character
(ASCII fragment). -/
def lowerChar (c : Char) : Char := c.toLower

/-- Models Rust `char::is_whitespace` and the regex class `\s`
(ASCII fragment: space, tab, newline, carriage return, vertical tab,
form feed). -/
def isWhitespaceChar (c : Char) : Bool :=
  c = ' ' || c = '\t' || c = '\n' || c = '\x0d' || c = '\x0b' || c = '\x0c'

/-- Models Rust `str::split(pattern)`: the pieces of `cs` between characters
satisfying `p`, empty pieces included, exactly as Rust's `split` yields them. -/
def splitBy (p : Char → Bool) : List Char → List Char → List (List Char)
  | [], cur => [cur.reverse]
  | c :: cs, cur =>
      if p c then cur.reverse :: splitBy p cs []
      else splitBy p cs (c :: cur)

/-- The stopword list of `extract_keywords` (`src/storage/mod.rs` lines
139-147), verbatim. -/
def stopwords : List String :=
  ["the", "a", "an", "and", "or", "but", "if", "then", "else", "when",
   "at", "from", "by", "for", "with", "about", "against", "between",
   "into", "through", "during", "before", "after", "above", "below",
   "to", "of", "in", "on", "is", "are", "was", "were", "be", "been",
   "being", "have", "has", "had", "do", "does", "did", "will", "would",
   "shall", "should", "can", "could", "may", "might", "must", "this",
   "that", "these", "those", "i", "you", "he", "she", "it", "we", "they"]

/-- The deduplication loop of `extract_keywords` (lines 156-161): push each
keyword onto the accumulator unless it is already there. -/
def dedupLoop : List String → List String → List String
  | [], acc => acc
  | k :: rest, acc =>
      if acc.contains k then dedupLoop rest acc
      else dedupLoop rest (acc ++ [k])

/-- `DocumentStorage::extract_keywords` (`src/storage/mod.rs` lines 129-164):
lower-case, split on non-alphanumeric characters, drop empty pieces, keep
words of length > 2 that are not stopwords, then deduplicate keeping the
first occurrence. -/
def extract_keywords (text : String) : List String :=
  let lowered := text.data.map lowerChar
  let words := (splitBy (fun c => !isAlnumChar c) lowered []).filter
    (fun s => !s.isEmpty)
  let keywords := (words.filter
    (fun w => decide (2 < w.length) && !stopwords.contains (String.mk w))).map
    String.mk
  dedupLoop keywords []

/-- Modelled from the spec (§4.2), for comparison with `extract_keywords`:
"split on runs of non-alphanumeric characters" as a direct maximal-run
tokenizer. -/
def tokenizeRunsAux (p : Char → Bool) : List Char → List Char → List (List Char)
  | [], cur => if cur.isEmpty then [] else [cur.reverse]
  | c :: cs, cur =>
      if p c then
        if cur.isEmpty then tokenizeRunsAux p cs []
        else cur.reverse :: tokenizeRunsAux p cs []
      else tokenizeRunsAux p cs (c :: cur)

/-- Modelled from the spec (§4.2): "deduplicate preserving first-occurrence
order" — keep the head, erase its later duplicates, recurse. -/
def dedupFirst : List String → List String
  | [] => []
  | k :: rest => k :: dedupFirst (rest.filter (fun x => x ≠ k))
termination_by l => l.length
decreasing_by
  simp only [List.length_cons]
  exact Nat.lt_succ_of_le (List.length_filter_le _ _)

/-- Modelled from the spec (§4.2): "lower-case the text; split on runs of
non-alphanumeric characters; discard tokens of length ≤ 2; discard tokens
present in a fixed stopword list; deduplicate preserving first-occurrence
order." -/
def extractKeywordsSpec (text : String) : List String :=
  let lowered := text.data.map lowerChar
  let toks := tokenizeRunsAux (fun c => !isAlnumChar c) lowered []
  let kept := toks.filter
    (fun w => decide (2 < w.length) && !stopwords.contains (String.mk w))
  dedupFirst (kept.map String.mk)

/-- `Document` (`src/document/mod.rs` lines 8-14). -/
structure Document where
  path : String
  content : String
  title : String
  summary : Option String
deriving DecidableEq

/-- `StoredDocument` (`src/storage/mod.rs` lines 17-24). -/
structure StoredDocument where
  path : String
  content : String
  title : String
  summary : Option String
  keywords : List String
deriving DecidableEq

/-- `DocumentStorage` (`src/storage/mod.rs` lines 11-14): the in-memory
`HashMap<String, StoredDocument>` is modelled as an association list; the
`storage_path` field carries no observable state and is omitted. -/
structure DocumentStorage where
  documents : List (String × StoredDocument)
deriving DecidableEq

/-- `HashMap::insert`: replace the entry at the key if present, otherwise add
a new entry. -/
def hashMapInsert (k : String) (v : StoredDocument) :
    List (String × StoredDocument) → List (String × StoredDocument)
  | [] => [(k, v)]
  | (k', v') :: rest =>
      if k' = k then (k, v) :: rest else (k', v') :: hashMapInsert k v rest

/-- `HashMap::get`. -/
def hashMapGet (k : String) : List (String × StoredDocument) → Option StoredDocument
  | [] => none
  | (k', v) :: rest => if k' = k then some v else hashMapGet k rest

/-- The `StoredDocument` built by `store_document` / `store_documents`
(`src/storage/mod.rs` lines 47-57 and 71-81): keywords are extracted from
the document content. -/
def mkStored (d : Document) : StoredDocument :=
  { path := d.path
    content := d.content
    title := d.title
    summary := d.summary
    keywords := extract_keywords d.content }

/-- `DocumentStorage::store_document` (lines 46-66). The snapshot write
(`save_documents`) may fail; `saveOk` is that environment outcome. The map
is updated before the save, so the new state keeps the entry either way and
only the returned `Result` differs. -/
def store_document (st : DocumentStorage) (d : Document) (saveOk : Bool) :
    DocumentStorage × Except Unit Unit :=
  (⟨hashMapInsert d.path (mkStored d) st.documents⟩,
   if saveOk then .ok () else .error ())

/-- `DocumentStorage::store_documents` (lines 69-91): upsert every document,
then save once. -/
def store_documents (st : DocumentStorage) (ds : List Document) (saveOk : Bool) :
    DocumentStorage × Except Unit Unit :=
  (⟨ds.foldl (fun m d => hashMapInsert d.path (mkStored d) m) st.documents⟩,
   if saveOk then .ok () else .error ())

/-- `DocumentStorage::get_all_documents` (lines 94-96). -/
def get_all_documents (st : DocumentStorage) : List StoredDocument :=
  st.documents.map Prod.snd

/-- `DocumentStorage::get_document` (lines 99-101). -/
def get_document (st : DocumentStorage) (path : String) : Option StoredDocument :=
  hashMapGet path st.documents

/-- The score computed by `find_relevant_documents` (lines 112-115): how many
query keywords occur in the document's keyword list. -/
def matchScore (queryKeywords : List String) (doc : StoredDocument) : Nat :=
  (queryKeywords.filter (fun kw => doc.keywords.contains kw)).length

/-- The comparator of `find_relevant_documents` line 122
(`score2.cmp(score1)`, i.e. descending by score). -/
def scoreGe (a b : StoredDocument × Nat) : Prop := b.2 ≤ a.2

instance : DecidableRel scoreGe := fun a b => Nat.decLe b.2 a.2

instance : IsTotal (StoredDocument × Nat) scoreGe :=
  ⟨fun a b => Nat.le_total b.2 a.2⟩

instance : IsTrans (StoredDocument × Nat) scoreGe :=
  ⟨fun _ _ _ h1 h2 => Nat.le_trans h2 h1⟩

/-- `DocumentStorage::find_relevant_documents` (lines 104-126): score every
stored document, keep scores > 0, sort descending (Rust's `sort_by` is a
stable sort, modelled by the stable `insertionSort`), return the documents. -/
def find_relevant_documents (st : DocumentStorage) (query : String) :
    List StoredDocument :=
  let query_keywords := extract_keywords query
  let scored := (st.documents.map Prod.snd).map
    (fun doc => (doc, matchScore query_keywords doc))
  let positive := scored.filter (fun p => 0 < p.2)
  (List.insertionSort scoreGe positive).map Prod.fst

/-- The state of the snapshot file `documents.json` when the store is
constructed. -/
inductive SnapshotState where
  /-- `index_path.exists()` is false. -/
  | absent
  /-- `File::open` fails. -/
  | unreadable
  /-- `serde_json::from_reader` fails. -/
  | corrupt
  /-- the file parses to this map. -/
  | valid (documents : List (String × StoredDocument))
deriving DecidableEq

/-- `DocumentStorage::load_documents` (lines 178-191): an absent file yields
an empty map; open or parse failures are errors. -/
def load_documents : SnapshotState → Except Unit (List (String × StoredDocument))
  | .absent => .ok []
  | .unreadable => .error ()
  | .corrupt => .error ()
  | .valid documents => .ok documents

/-- `DocumentStorage::new` (lines 28-43): directory creation may fail
(`dirOk`); the load result is taken with `unwrap_or_default`, so any load
error silently becomes an empty map and `new` still returns `Ok`. -/
def DocumentStorage.new (dirOk : Bool) (snapshot : SnapshotState) :
    Except Unit DocumentStorage :=
  if dirOk then
    .ok ⟨((load_documents snapshot).toOption).getD []⟩
  else
    .error ()

/-- The store states reachable through the program's own operations:
construction (from no snapshot, a failed load, or a snapshot that
`save_documents` wrote from a reachable store and serde round-trips), and
the two mutating operations with either save outcome. -/
inductive Reachable : DocumentStorage → Prop where
  /-- `new` when `load_documents` produced no map. -/
  | newEmpty : Reachable ⟨[]⟩
  /-- `new` loading the snapshot that `save_documents` wrote from a
  reachable store. -/
  | newLoaded (st : DocumentStorage) : Reachable st → Reachable ⟨st.documents⟩
  | storeStep (st : DocumentStorage) (d : Document) (saveOk : Bool) :
      Reachable st → Reachable (store_document st d saveOk).1
  | storeManyStep (st : DocumentStorage) (ds : List Document) (saveOk : Bool) :
      Reachable st → Reachable (store_documents st ds saveOk).1

/-- Substring test used to model regex compilation. -/
def containsSubstr (needle : List Char) : List Char → Bool
  | [] => needle.isEmpty
  | c :: rest => needle.isPrefixOf (c :: rest) || containsSubstr needle rest

/-- Models `regex::Regex::new` for the patterns this crate uses: the `regex`
crate rejects look-around at compile time, so any pattern containing a
look-ahead or look-behind group fails; the patterns here contain no other
unsupported construct. -/
def regexNew (pattern : String) : Option Unit :=
  if containsSubstr "(?!".data pattern.data
      || containsSubstr "(?=".data pattern.data
      || containsSubstr "(?<".data pattern.data then
    none
  else
    some ()

/-- The pattern of `extract_title` (`src/document/mod.rs` line 95). -/
def titlePattern : String := "(?m)^#\\s+(.+)$"

/-- The pattern of `generate_summary` (`src/document/mod.rs` line 102),
with a look-ahead group. -/
def summaryPattern : String := "(?m)^(?!#)(.+)$"

/-- The match of `\s+(.+)$` against the text after a line-initial `#`:
greedy, backtracking `\s+` takes the longest whitespace prefix that still
leaves a non-newline character for `(.+)` to start on; the capture then runs
to the end of that line. `k + 1` counts the whitespace characters still
claimable by `\s+`. -/
def headingCaptureAux (rest : List Char) : Nat → Option (List Char)
  | 0 => none
  | k + 1 =>
      match (rest.drop (k + 1)).head? with
      | some c =>
          if c = '\n' then headingCaptureAux rest k
          else some ((rest.drop (k + 1)).takeWhile (fun x => x ≠ '\n'))
      | none => headingCaptureAux rest k

/-- Capture of `^#\s+(.+)$` at one candidate position, given the text after
the `#`. -/
def headingCapture (rest : List Char) : Option (List Char) :=
  headingCaptureAux rest (rest.takeWhile isWhitespaceChar).length

/-- Advance to the next line start (the regex engine resumes `^` matching at
the position after the next newline). -/
def nextLineStart (cs : List Char) : List Char :=
  (cs.dropWhile (fun c => c ≠ '\n')).drop 1

/-- Scan the text line start by line start for the first match of
`^#\s+(.+)$`; fuel is bounded by the text length since `nextLineStart`
strictly shrinks a nonempty list. -/
def scanHeading : Nat → List Char → Option (List Char)
  | 0, _ => none
  | _ + 1, [] => none
  | fuel + 1, c :: cs =>
      if c = '#' then
        match headingCapture cs with
        | some cap => some cap
        | none => scanHeading fuel (nextLineStart (c :: cs))
      else scanHeading fuel (nextLineStart (c :: cs))

/-- `DocumentScanner::extract_title` (`src/document/mod.rs` lines 94-97):
first match of `(?m)^#\s+(.+)$` in the content. -/
def extract_title (content : String) : Option String :=
  match regexNew titlePattern with
  | none => none
  | some _ =>
      (scanHeading (content.data.length + 1) content.data).map String.mk

/-- Rust `str::trim` (ASCII fragment). -/
def rustTrim (cs : List Char) : List Char :=
  ((cs.dropWhile isWhitespaceChar).reverse.dropWhile isWhitespaceChar).reverse

/-- The captures of `(?m)^(?!#)(.+)$`: every nonempty line that does not
start with `#`. -/
def summaryCaptureLines (cs : List Char) : List (List Char) :=
  (splitBy (fun c => c = '\n') cs []).filter
    (fun line => !line.isEmpty && line.head? ≠ some '#')

/-- The accumulation loop of `generate_summary` (`src/document/mod.rs` lines
105-124): append each trimmed nonempty captured line plus a space; past 200
characters truncate to 197, append an ellipsis and stop; at the end an empty
accumulator means no summary. -/
def summaryLoop : List (List Char) → List Char → Option (List Char)
  | [], acc => if acc.isEmpty then none else some (rustTrim acc)
  | line :: rest, acc =>
      let l := rustTrim line
      if l.isEmpty then summaryLoop rest acc
      else
        let acc' := acc ++ l ++ [' ']
        if 200 < acc'.length then some (rustTrim (acc'.take 197 ++ "...".data))
        else summaryLoop rest acc'

/-- `DocumentScanner::generate_summary` (`src/document/mod.rs` lines
100-125). The pattern contains a look-ahead, so `Regex::new(...).ok()?`
returns early and the line loop below it is dead code. -/
def generate_summary (content : String) : Option String :=
  match regexNew summaryPattern with
  | none => none
  | some _ =>
      (summaryLoop (summaryCaptureLines content.data) []).map String.mk

/-- The line loop of `generate_summary` taken on its own (the behaviour the
function would have if its pattern compiled). -/
def generate_summary_body (content : String) : Option String :=
  (summaryLoop (summaryCaptureLines content.data) []).map String.mk

/-- `path.split('/').last().unwrap_or("Untitled")` from `list_files`
(`src/github/mod.rs` line 221): the final path segment, extension
included. -/
def lastSegment (path : String) : String :=
  match (splitBy (fun c => c = '/') path.data []).getLast? with
  | some seg => String.mk seg
  | none => "Untitled"

/-- The `Document` assembled by `list_files` for one successfully fetched
file (`src/github/mod.rs` lines 219-237). -/
def remoteDocument (path content : String) : Document :=
  let filename := lastSegment path
  let title := (extract_title content).getD filename
  let summary := generate_summary content
  { path := path, content := content, title := title, summary := summary }

/-- Modelled from the spec (§4.1 Output) for comparison with
`remoteDocument`: "derive `title` (first top-level heading in content, else
the file's base name without extension)" — the base name with its final
`.extension` removed, as `Path::file_stem` would produce. -/
def baseNameNoExt (path : String) : String :=
  let seg := (lastSegment path).data
  let stem := (seg.reverse.dropWhile (fun c => c ≠ '.')).drop 1
  if stem.isEmpty then String.mk seg else String.mk stem.reverse

/-- Modelled from the spec (§4.1 Output): the title the spec describes for a
remotely fetched file. -/
def specRemoteTitle (path content : String) : String :=
  (extract_title content).getD (baseNameNoExt path)

/-- The per-file retry state machine of `get_file_contents`
(`src/github/mod.rs` lines 83-123). `fetch i` is the outcome of the
`(i+1)`-th call to `fetch_file_content`; the trace records how many fetch
attempts ran, which sleeps happened (in ms, in order) and the final
result. -/
structure RetryTrace where
  attempts : Nat
  sleepsMs : List Nat
  result : Option String
deriving DecidableEq

/-- `max_retries` (`src/github/mod.rs` line 84). -/
def maxRetries : Nat := 3

/-- The retry loop (lines 88-122), transcribed guard for guard: bail out
once `retry_count >= max_retries`; sleep (doubling the delay) before every
attempt but the first; on failure increment `retry_count` when it is still
below `max_retries`, otherwise return the error (a branch the leading bail
makes unreachable). Fuel is `maxRetries + 1`, enough for every loop entry. -/
def retryLoop (fetch : Nat → Option String) :
    Nat → Nat → Nat → Nat → List Nat → RetryTrace
  | 0, _, _, attempts, sleeps => ⟨attempts, sleeps.reverse, none⟩
  | fuel + 1, retryCount, delayMs, attempts, sleeps =>
      if maxRetries ≤ retryCount then ⟨attempts, sleeps.reverse, none⟩
      else
        let sleeps' := if 0 < retryCount then delayMs :: sleeps else sleeps
        let delayMs' := if 0 < retryCount then delayMs * 2 else delayMs
        match fetch attempts with
        | some content => ⟨attempts + 1, sleeps'.reverse, some content⟩
        | none =>
            if retryCount < maxRetries then
              retryLoop fetch fuel (retryCount + 1) delayMs' (attempts + 1) sleeps'
            else ⟨attempts + 1, sleeps'.reverse, none⟩

/-- `get_file_contents` on a cache miss: the retry loop entered with
`retry_count = 0` and a 100ms delay. -/
def get_file_contents_uncached (fetch : Nat → Option String) : RetryTrace :=
  retryLoop fetch (maxRetries + 1) 0 100 0 []

/-- The chunked fetch phase of `list_files` (lines 181-214) as observed in
its output: each file whose fetch fails is dropped, the others keep their
content; one file's failure never removes another file's entry. -/
def list_files_contents (items : List String) (fetched : String → Option String) :
    List (String × String) :=
  items.filterMap (fun p => (fetched p).map (fun c => (p, c)))

/-- The first document of §8 of the spec. -/
def rustDoc : Document :=
  { path := "rust.md"
    content := "Rust is a systems programming language focused on safety and performance"
    title := "Rust Programming"
    summary := none }

/-- The second document of §8 of the spec. -/
def pythonDoc : Document :=
  { path := "python.md"
    content := "Python is a high-level programming language known for its simplicity"
    title := "Python Programming"
    summary := none }

/-- The two-document store of §8: `rust.md` then `python.md` stored into an
empty store. -/
def st8 : DocumentStorage :=
  (store_document (store_document ⟨[]⟩ rustDoc true).1 pythonDoc true).1

end KodeAi

namespace KodeAi

theorem isEmpty_reverse (l : List Char) : l.reverse.isEmpty = l.isEmpty := by
  cases l with
  | nil => rfl
  | cons a t => simp [List.isEmpty_iff]

theorem splitBy_filter_eq_tokenizeRuns (p : Char → Bool) :
    ∀ (cs cur : List Char),
      (splitBy p cs cur).filter (fun s => !s.isEmpty) =
        tokenizeRunsAux p cs cur := by
  intro cs
  induction cs with
  | nil =>
      intro cur
      simp only [splitBy, tokenizeRunsAux]
      cases hcur : cur.isEmpty with
      | true =>
          have : cur = [] := List.isEmpty_iff.mp hcur
          subst this
          simp [List.filter]
      | false =>
          have hrev : cur.reverse.isEmpty = false := by
            rw [isEmpty_reverse, hcur]
          simp [List.filter, hrev, hcur]
  | cons c cs ih =>
      intro cur
      simp only [splitBy, tokenizeRunsAux]
      cases hp : p c with
      | true =>
          simp only [if_pos rfl]
          cases hcur : cur.isEmpty with
          | true =>
              have : cur = [] := List.isEmpty_iff.mp hcur
              subst this
              simp [List.filter, ih]
          | false =>
              have hrev : cur.reverse.isEmpty = false := by
                rw [isEmpty_reverse, hcur]
              simp [List.filter, hrev, hcur, ih]
      | false =>
          simp [ih]

theorem dedupLoop_eq_dedupFirst_aux :
    ∀ (l acc : List String),
      dedupLoop l acc = acc ++ dedupFirst (l.filter (fun k => !acc.contains k)) := by
  intro l
  induction l with
  | nil => intro acc; simp [dedupLoop, dedupFirst]
  | cons k rest ih =>
      intro acc
      simp only [dedupLoop, List.filter_cons]
      cases hmem : acc.contains k with
      | true => simp [hmem, ih]
      | false =>
          rw [if_neg (by simp [hmem]), if_pos (by simp [hmem]), ih (acc ++ [k])]
          have hfil : rest.filter (fun x => !(acc ++ [k]).contains x) =
              rest.filter (fun a => decide (a ≠ k) && !acc.contains a) := by
            apply List.filter_congr
            intro x _
            by_cases hxk : x = k <;> by_cases hxa : x ∈ acc <;>
              simp [hxk, hxa]
          simp only [dedupFirst, List.filter_filter, hfil, List.append_assoc,
            List.singleton_append]

/-- The code's keyword extractor coincides with the spec's description. -/
theorem extract_keywords_eq_spec (text : String) :
    extract_keywords text = extractKeywordsSpec text := by
  simp only [extract_keywords, extractKeywordsSpec]
  rw [dedupLoop_eq_dedupFirst_aux, splitBy_filter_eq_tokenizeRuns]
  simp

theorem mem_hashMapInsert {k key : String} {sd v : StoredDocument} :
    ∀ {l : List (String × StoredDocument)},
      (k, sd) ∈ hashMapInsert key v l → (k = key ∧ sd = v) ∨ (k, sd) ∈ l := by
  intro l
  induction l with
  | nil =>
      intro h
      simp only [hashMapInsert, List.mem_singleton, Prod.mk.injEq] at h
      exact Or.inl h
  | cons p rest ih =>
      intro h
      obtain ⟨k', v'⟩ := p
      simp only [hashMapInsert] at h
      by_cases hk : k' = key
      · rw [if_pos hk] at h
        rcases List.mem_cons.mp h with h1 | h2
        · exact Or.inl ⟨congrArg Prod.fst h1, congrArg Prod.snd h1⟩
        · exact Or.inr (List.mem_cons_of_mem _ h2)
      · rw [if_neg hk] at h
        rcases List.mem_cons.mp h with h1 | h2
        · exact Or.inr (List.mem_cons.mpr (Or.inl h1))
        · rcases ih h2 with h3 | h4
          · exact Or.inl h3
          · exact Or.inr (List.mem_cons_of_mem _ h4)

theorem hashMapGet_hashMapInsert_self (k : String) (v : StoredDocument) :
    ∀ (l : List (String × StoredDocument)),
      hashMapGet k (hashMapInsert k v l) = some v := by
  intro l
  induction l with
  | nil => simp [hashMapInsert, hashMapGet]
  | cons p rest ih =>
      obtain ⟨k', v'⟩ := p
      simp only [hashMapInsert]
      by_cases hk : k' = k
      · rw [if_pos hk]
        simp [hashMapGet]
      · rw [if_neg hk]
        simp [hashMapGet, hk, ih]

theorem keys_hashMapInsert (k : String) (v : StoredDocument) :
    ∀ (l : List (String × StoredDocument)),
      (hashMapInsert k v l).map Prod.fst =
        if k ∈ l.map Prod.fst then l.map Prod.fst else l.map Prod.fst ++ [k] := by
  intro l
  induction l with
  | nil => simp [hashMapInsert]
  | cons p rest ih =>
      obtain ⟨k', v'⟩ := p
      simp only [hashMapInsert, List.map_cons]
      by_cases hk : k' = k
      · rw [if_pos hk, if_pos (by simp [hk])]
        simp [hk]
      · rw [if_neg hk, List.map_cons, ih]
        by_cases hmem : k ∈ rest.map Prod.fst
        · rw [if_pos hmem, if_pos (by simp [hmem])]
        · have hnc : k ∉ k' :: rest.map Prod.fst := by
            intro hcons
            rcases List.mem_cons.mp hcons with h | h
            · exact hk h.symm
            · exact hmem h
          rw [if_neg hmem, if_neg hnc, List.cons_append]

theorem nodup_dedupLoop :
    ∀ (l acc : List String), acc.Nodup → (dedupLoop l acc).Nodup := by
  intro l
  induction l with
  | nil => intro acc h; exact h
  | cons k rest ih =>
      intro acc h
      simp only [dedupLoop]
      cases hmem : acc.contains k with
      | true => exact ih acc h
      | false =>
          apply ih
          rw [List.nodup_append]
          refine ⟨h, List.nodup_singleton k, ?_⟩
          intro a ha hb
          rw [List.mem_singleton] at hb
          subst hb
          have hna : a ∉ acc := by simpa using hmem
          exact hna ha

/-- The keyword list the extractor returns has no duplicates. -/
theorem extract_keywords_nodup (text : String) : (extract_keywords text).Nodup := by
  simp only [extract_keywords]
  exact nodup_dedupLoop _ [] List.nodup_nil

theorem map_fst_filter_scored (f : StoredDocument → Nat) :
    ∀ (docs : List StoredDocument),
      (((docs.map (fun d => (d, f d))).filter (fun p => 0 < p.2)).map Prod.fst) =
        docs.filter (fun d => decide (0 < f d)) := by
  intro docs
  induction docs with
  | nil => rfl
  | cons d rest ih =>
      simp only [List.map_cons, List.filter_cons]
      by_cases hd : 0 < f d
      · simp [hd, ih]
      · simp [hd, ih]

theorem mem_scored_filter {f : StoredDocument → Nat} {docs : List StoredDocument}
    {p : StoredDocument × Nat}
    (h : p ∈ (docs.map (fun d => (d, f d))).filter (fun q => 0 < q.2)) :
    p.2 = f p.1 ∧ 0 < p.2 := by
  have h1 := List.mem_filter.mp h
  obtain ⟨d, _, hd⟩ := List.mem_map.mp h1.1
  refine ⟨?_, by simpa using h1.2⟩
  rw [← hd]

/-- C3: for every input text the keyword extractor returns exactly the list
the spec describes (lower-case, split on runs of non-alphanumerics, drop
tokens of length ≤ 2 and stopwords, deduplicate keeping first occurrences),
and the same function is what the store applies to document content at
store time. -/
theorem C3_extractor_matches_spec :
    (∀ text : String, extract_keywords text = extractKeywordsSpec text)
    ∧ (∀ d : Document, (mkStored d).keywords = extract_keywords d.content) :=
  ⟨fun text => extract_keywords_eq_spec text, fun _ => rfl⟩

/-- C9: `generate_summary` returns `none` on every input — its look-ahead
pattern fails to compile and `.ok()?` returns early — so every document the
remote fetch coordinator assembles has no summary. -/
theorem C9_generate_summary_always_none (content path : String) :
    generate_summary content = none
    ∧ (remoteDocument path content).summary = none :=
  ⟨rfl, rfl⟩

/-- C10: storing is not atomic when the snapshot write fails: the operation
reports an error, yet the in-memory state is the same as on a successful
save and `get_document` serves the document whose store reportedly
failed. -/
theorem C10_store_not_atomic (st : DocumentStorage) (d : Document)
    (ds : List Document) :
    (store_document st d false).2 = .error ()
    ∧ (store_document st d false).1 = (store_document st d true).1
    ∧ get_document (store_document st d false).1 d.path = some (mkStored d)
    ∧ (store_documents st ds false).2 = .error ()
    ∧ (store_documents st ds false).1 = (store_documents st ds true).1 :=
  ⟨rfl, rfl, hashMapGet_hashMapInsert_self d.path (mkStored d) st.documents,
   rfl, rfl⟩

/-- C8: constructing the store over an absent, unreadable or corrupt
snapshot yields a successful result holding the empty store, even though
the loader itself fails on the unreadable and corrupt snapshots. -/
theorem C8_new_swallows_load_errors (snapshot : SnapshotState)
    (h : snapshot = .absent ∨ snapshot = .unreadable ∨ snapshot = .corrupt) :
    DocumentStorage.new true snapshot = .ok ⟨[]⟩
    ∧ (snapshot = .unreadable ∨ snapshot = .corrupt →
        load_documents snapshot = .error ()) := by
  rcases h with h | h | h <;> subst h
  · exact ⟨rfl, fun h2 => by rcases h2 with h2 | h2 <;> exact absurd h2 (by decide)⟩
  · exact ⟨rfl, fun _ => rfl⟩
  · exact ⟨rfl, fun _ => rfl⟩

theorem C8_witness :
    (SnapshotState.corrupt = SnapshotState.absent
      ∨ SnapshotState.corrupt = SnapshotState.unreadable
      ∨ SnapshotState.corrupt = SnapshotState.corrupt)
    ∧ (DocumentStorage.new true .corrupt = .ok ⟨[]⟩
       ∧ (SnapshotState.corrupt = .unreadable ∨ SnapshotState.corrupt = .corrupt →
           load_documents .corrupt = .error ())) :=
  ⟨Or.inr (Or.inr rfl),
   C8_new_swallows_load_errors .corrupt (Or.inr (Or.inr rfl))⟩

/-- C4: the retry loop makes only 3 fetch attempts in total (1 initial + 2
retries) with sleeps of 100ms and 200ms; a fetch succeeding on its third
attempt is reported successful; a fetch that would succeed on a fourth
attempt is never given one; and a failed file is dropped from the batch
without removing the other files. -/
theorem C4_retry_behaviour :
    get_file_contents_uncached (fun _ => none) = ⟨3, [100, 200], none⟩
    ∧ get_file_contents_uncached (fun i => if i = 2 then some "ok" else none) =
        ⟨3, [100, 200], some "ok"⟩
    ∧ get_file_contents_uncached (fun i => if i = 3 then some "ok" else none) =
        ⟨3, [100, 200], none⟩
    ∧ list_files_contents ["a.md", "b.md"]
        (fun p => if p = "b.md" then some "B" else none) = [("b.md", "B")] := by
  refine ⟨rfl, rfl, rfl, rfl⟩

/-- C6: on content whose first line is a plain paragraph the summary is
`none`, not that paragraph: the summary pattern's look-ahead fails to
compile, while the line loop it guards (taken on its own) would have
produced exactly the paragraph. -/
theorem C6_summary_never_derived :
    generate_summary "This is a plain paragraph." = none
    ∧ generate_summary_body "This is a plain paragraph." =
        some "This is a plain paragraph."
    ∧ regexNew summaryPattern = none := by
  refine ⟨rfl, by decide, rfl⟩

/-- C7 counterexample: for a heading-less file at `docs/readme.md` the code
titles it `readme.md` (final path segment, extension kept), not the
`readme` the claim's "base name without its extension" requires. -/
theorem C7_counterexample :
    (remoteDocument "docs/readme.md" "Plain text without a heading.").title
      = "readme.md"
    ∧ specRemoteTitle "docs/readme.md" "Plain text without a heading."
      = "readme"
    ∧ ("readme.md" : String) ≠ "readme" := by
  refine ⟨by decide, by decide, by decide⟩

/-- C7 amended: the title of a remotely fetched file is the first top-level
heading of the content when one exists, and otherwise the file's final path
segment with its extension kept. -/
theorem C7_amended_title_rule (path content : String) :
    (remoteDocument path content).title =
      match extract_title content with
      | some t => t
      | none => lastSegment path := by
  cases h : extract_title content with
  | none => simp [remoteDocument, h]
  | some t => simp [remoteDocument, h]

/-- C2: storing a document into a store with duplicate-free keys leaves
exactly one entry at its path, keeps the keys duplicate-free, and a
subsequent lookup at that path returns a stored document carrying the
document's content, title and summary unchanged. -/
theorem C2_store_then_get (st : DocumentStorage) (d : Document) (saveOk : Bool)
    (h : (st.documents.map Prod.fst).Nodup) :
    (((store_document st d saveOk).1.documents.map Prod.fst).count d.path = 1)
    ∧ ((store_document st d saveOk).1.documents.map Prod.fst).Nodup
    ∧ get_document (store_document st d saveOk).1 d.path = some (mkStored d)
    ∧ (mkStored d).content = d.content
    ∧ (mkStored d).title = d.title
    ∧ (mkStored d).summary = d.summary := by
  have hkeys := keys_hashMapInsert d.path (mkStored d) st.documents
  refine ⟨?_, ?_, hashMapGet_hashMapInsert_self d.path (mkStored d) st.documents,
    rfl, rfl, rfl⟩
  · show ((hashMapInsert d.path (mkStored d) st.documents).map Prod.fst).count
      d.path = 1
    rw [hkeys]
    by_cases hmem : d.path ∈ st.documents.map Prod.fst
    · rw [if_pos hmem]
      exact List.count_eq_one_of_mem h hmem
    · rw [if_neg hmem, List.count_append,
        List.count_eq_zero.mpr hmem]
      simp
  · show ((hashMapInsert d.path (mkStored d) st.documents).map Prod.fst).Nodup
    rw [hkeys]
    by_cases hmem : d.path ∈ st.documents.map Prod.fst
    · rw [if_pos hmem]; exact h
    · rw [if_neg hmem, List.nodup_append]
      refine ⟨h, List.nodup_singleton _, ?_⟩
      intro a ha hb
      rw [List.mem_singleton] at hb
      subst hb
      exact hmem ha

theorem C2_witness :
    ((⟨[]⟩ : DocumentStorage).documents.map Prod.fst).Nodup
    ∧ ((((store_document ⟨[]⟩ rustDoc true).1.documents.map Prod.fst).count
          rustDoc.path = 1)
       ∧ ((store_document ⟨[]⟩ rustDoc true).1.documents.map Prod.fst).Nodup
       ∧ get_document (store_document ⟨[]⟩ rustDoc true).1 rustDoc.path =
           some (mkStored rustDoc)
       ∧ (mkStored rustDoc).content = rustDoc.content
       ∧ (mkStored rustDoc).title = rustDoc.title
       ∧ (mkStored rustDoc).summary = rustDoc.summary) :=
  ⟨List.nodup_nil, C2_store_then_get ⟨[]⟩ rustDoc true List.nodup_nil⟩

theorem mem_foldl_insert :
    ∀ (ds : List Document) (l : List (String × StoredDocument)) (k : String)
      (sd : StoredDocument),
      (k, sd) ∈ ds.foldl (fun m d => hashMapInsert d.path (mkStored d) m) l →
      (∃ d ∈ ds, sd = mkStored d) ∨ (k, sd) ∈ l := by
  intro ds
  induction ds with
  | nil => intro l k sd h; exact Or.inr h
  | cons d rest ih =>
      intro l k sd h
      rcases ih (hashMapInsert d.path (mkStored d) l) k sd h with h1 | h2
      · obtain ⟨d', hd', hsd⟩ := h1
        exact Or.inl ⟨d', List.mem_cons_of_mem _ hd', hsd⟩
      · rcases mem_hashMapInsert h2 with ⟨_, h3⟩ | h4
        · exact Or.inl ⟨d, List.mem_cons_self _ _, h3⟩
        · exact Or.inr h4

theorem reachable_entries_keywords {st : DocumentStorage} (hreach : Reachable st) :
    ∀ k sd, (k, sd) ∈ st.documents → sd.keywords = extract_keywords sd.content := by
  induction hreach with
  | newEmpty =>
      intro k sd h
      exact absurd h (List.not_mem_nil _)
  | newLoaded st' _ ih => exact ih
  | storeStep st' d saveOk _ ih =>
      intro k sd hmem
      have hmem' : (k, sd) ∈ hashMapInsert d.path (mkStored d) st'.documents := hmem
      rcases mem_hashMapInsert hmem' with ⟨_, h2⟩ | h3
      · subst h2; rfl
      · exact ih k sd h3
  | storeManyStep st' ds saveOk _ ih =>
      intro k sd hmem
      have hmem' : (k, sd) ∈
          ds.foldl (fun m d => hashMapInsert d.path (mkStored d) m) st'.documents :=
        hmem
      rcases mem_foldl_insert ds st'.documents k sd hmem' with ⟨d, _, hsd⟩ | h2
      · subst hsd; rfl
      · exact ih k sd h2

/-- C5: in every store state reachable through the program's operations
(construction from no snapshot, a failed load or a snapshot saved from a
reachable store, and the two store operations), every stored document's
keyword list is exactly the extractor applied to its content. -/
theorem C5_keywords_invariant (st : DocumentStorage) (k : String)
    (sd : StoredDocument) (hreach : Reachable st)
    (hmem : (k, sd) ∈ st.documents) :
    sd.keywords = extract_keywords sd.content :=
  reachable_entries_keywords hreach k sd hmem

theorem C5_witness :
    Reachable st8
    ∧ ("rust.md", mkStored rustDoc) ∈ st8.documents
    ∧ (mkStored rustDoc).keywords = extract_keywords (mkStored rustDoc).content :=
  have hreach : Reachable st8 :=
    Reachable.storeStep _ pythonDoc true
      (Reachable.storeStep _ rustDoc true Reachable.newEmpty)
  have hmem : ("rust.md", mkStored rustDoc) ∈ st8.documents := by decide
  ⟨hreach, hmem, C5_keywords_invariant st8 "rust.md" (mkStored rustDoc) hreach hmem⟩

/-- C1: for every store and query, the query is tokenized by the extractor
into a duplicate-free keyword list, each document's score is the number of
(distinct) query keywords occurring in its keyword list, the result is a
permutation of exactly the stored documents with positive score ordered by
weakly descending score; and on the §8 two-document store the four §8
queries behave as the spec states. -/
theorem C1_find_relevant_documents :
    (∀ (st : DocumentStorage) (query : String),
      (extract_keywords query).Nodup
      ∧ (∀ d : StoredDocument,
          matchScore (extract_keywords query) d =
            ((extract_keywords query).filter
              (fun kw => decide (kw ∈ d.keywords))).length)
      ∧ List.Perm (find_relevant_documents st query)
          ((st.documents.map Prod.snd).filter
            (fun d => decide (0 < matchScore (extract_keywords query) d)))
      ∧ (find_relevant_documents st query).Pairwise
          (fun d1 d2 =>
            matchScore (extract_keywords query) d2
              ≤ matchScore (extract_keywords query) d1))
    ∧ ((find_relevant_documents st8 "rust systems programming").map
        (fun d => (d.path, matchScore (extract_keywords "rust systems programming") d))).head?
        = some ("rust.md", 3)
    ∧ ((find_relevant_documents st8 "python high-level").map
        (fun d => d.path)).head? = some "python.md"
    ∧ ((find_relevant_documents st8 "programming language").map
        (fun d => d.path)).length = 2
    ∧ "rust.md" ∈ (find_relevant_documents st8 "programming language").map
        (fun d => d.path)
    ∧ "python.md" ∈ (find_relevant_documents st8 "programming language").map
        (fun d => d.path)
    ∧ find_relevant_documents st8 "javascript web development" = [] := by
  refine ⟨?_, by decide, by decide, by decide, by decide, by decide, by decide⟩
  intro st query
  have hfr : find_relevant_documents st query =
      (List.insertionSort scoreGe
        (((st.documents.map Prod.snd).map
          (fun doc => (doc, matchScore (extract_keywords query) doc))).filter
          (fun p => 0 < p.2))).map Prod.fst := rfl
  refine ⟨extract_keywords_nodup query, ?_, ?_, ?_⟩
  · intro d
    unfold matchScore
    congr 1
    apply List.filter_congr
    intro kw _
    simp
  · rw [hfr]
    have h1 := (List.perm_insertionSort scoreGe
      (((st.documents.map Prod.snd).map
        (fun doc => (doc, matchScore (extract_keywords query) doc))).filter
        (fun p => 0 < p.2))).map Prod.fst
    exact (map_fst_filter_scored (matchScore (extract_keywords query))
      (st.documents.map Prod.snd)) ▸ h1
  · rw [hfr]
    have hs := List.sorted_insertionSort scoreGe
      (((st.documents.map Prod.snd).map
        (fun doc => (doc, matchScore (extract_keywords query) doc))).filter
        (fun p => 0 < p.2))
    have hmemsc : ∀ p ∈ List.insertionSort scoreGe
        (((st.documents.map Prod.snd).map
          (fun doc => (doc, matchScore (extract_keywords query) doc))).filter
          (fun p => 0 < p.2)),
        p.2 = matchScore (extract_keywords query) p.1 := by
      intro p hp
      exact (mem_scored_filter ((List.perm_insertionSort scoreGe _).mem_iff.mp hp)).1
    have hpair : (List.insertionSort scoreGe
        (((st.documents.map Prod.snd).map
          (fun doc => (doc, matchScore (extract_keywords query) doc))).filter
          (fun p => 0 < p.2))).Pairwise
        (fun p q => matchScore (extract_keywords query) q.1
          ≤ matchScore (extract_keywords query) p.1) := by
      refine List.Pairwise.imp_of_mem ?_ hs
      intro a b ha hb hr
      rw [← hmemsc a ha, ← hmemsc b hb]
      exact hr
    exact List.pairwise_map.mpr hpair

end KodeAi
